import Mathlib

/-!
Verification of the ruvector serving-layer specification against the
repository's code.

The mathpix example's concrete Rust code (src/examples/mathpix/src/error.rs,
src/examples/mathpix/src/ocr/models.rs) is embedded directly.  The Cache
Store, Dedup Coordinator, Confidence Router and Circuit Breaker are provided
by code of the repository that is not part of the example sources (the moka
cache behind AppState, the real server behind the TestServer mock, and the
ruvector_tiny_dancer_core crate behind examples/tiny-dancer-usage.rs); those
components are modelled from the specification's words, as marked on each
definition.
-/

/-- Association-list lookup: first binding of key k, if any. -/
def alookup {κ α : Type} [DecidableEq κ] (k : κ) : List (κ × α) → Option α
  | [] => none
  | p :: l => if p.1 = k then some p.2 else alookup k l

/-- Association-list removal of every binding of key k. -/
def aremove {κ α : Type} [DecidableEq κ] (k : κ) : List (κ × α) → List (κ × α)
  | [] => []
  | p :: l => if p.1 = k then aremove k l else p :: aremove k l

namespace CacheStore

/-- Modelled from the spec: configuration of the Cache Store
(max_capacity, time_to_live, time_to_idle), spec section 6; the concrete
cache implementation (moka, behind AppState and the TestServer mock) is not
among the example sources.  Time is measured in abstract discrete units. -/
structure CacheConfig where
  max_capacity : Nat
  time_to_live : Nat
  time_to_idle : Nat
deriving DecidableEq

/-- Modelled from the spec: a CacheEntry as in spec section 3, holding the
serialized result payload and its creation / last-access timestamps. -/
structure CacheEntry where
  payload : String
  created_at : Nat
  last_accessed_at : Nat
deriving DecidableEq

/-- Modelled from the spec: the Cache Store state: fingerprint-keyed entries
plus the CacheStats counters (hits, misses, evictions) of spec section 3. -/
structure CacheState where
  entries : List (Nat × CacheEntry)
  hits : Nat
  misses : Nat
  evictions : Nat
deriving DecidableEq

/-- The empty cache with zeroed stats. -/
def initState : CacheState :=
  { entries := [], hits := 0, misses := 0, evictions := 0 }

/-- current_size of the store. -/
def size (s : CacheState) : Nat := s.entries.length

/-- Modelled from the spec: an entry is expired once
now - created_at > time_to_live OR now - last_accessed_at > time_to_idle
(spec section 4.2). -/
def expiredAt (cfg : CacheConfig) (e : CacheEntry) (now : Nat) : Bool :=
  if cfg.time_to_live < now - e.created_at then true
  else if cfg.time_to_idle < now - e.last_accessed_at then true
  else false

/-- Eviction order: oldest last_accessed_at first, ties broken by oldest
created_at (spec section 4.2); a final fingerprint tie-break makes the
choice deterministic. -/
def olderThan (a b : Nat × CacheEntry) : Bool :=
  if a.2.last_accessed_at < b.2.last_accessed_at then true
  else if b.2.last_accessed_at < a.2.last_accessed_at then false
  else if a.2.created_at < b.2.created_at then true
  else if b.2.created_at < a.2.created_at then false
  else if a.1 < b.1 then true
  else false

/-- The least-recently-used entry of the store, if any. -/
def lruMin : List (Nat × CacheEntry) → Option (Nat × CacheEntry)
  | [] => none
  | x :: xs => some (xs.foldl (fun acc y => if olderThan y acc then y else acc) x)

/-- Evict the least-recently-used entry. -/
def evictOnce (l : List (Nat × CacheEntry)) : List (Nat × CacheEntry) :=
  match lruMin l with
  | none => l
  | some m => aremove m.1 l

/-- Evict n entries, least-recently-used first. -/
def evictN : Nat → List (Nat × CacheEntry) → List (Nat × CacheEntry)
  | 0, l => l
  | n + 1, l => evictN n (evictOnce l)

/-- Modelled from the spec: get(fingerprint): exact lookup; on hit refresh
last_accessed_at and increment hits; on miss (absent or expired) increment
misses and return none without triggering recomputation (spec section 4.2). -/
def get (cfg : CacheConfig) (s : CacheState) (f : Nat) (now : Nat) :
    Option String × CacheState :=
  match alookup f s.entries with
  | none => (none, { s with misses := s.misses + 1 })
  | some e =>
    if expiredAt cfg e now then
      (none, { s with misses := s.misses + 1 })
    else
      (some e.payload,
       { s with
           entries := (f, { e with last_accessed_at := now }) :: aremove f s.entries,
           hits := s.hits + 1 })

/-- Modelled from the spec: put(fingerprint, payload): inserts/overwrites,
then evicts least-recently-used entries until current_size is at most
max_capacity, incrementing evictions once per removed entry
(spec section 4.2). -/
def put (cfg : CacheConfig) (s : CacheState) (f : Nat) (v : String) (now : Nat) :
    CacheState :=
  let l1 := (f, { payload := v, created_at := now, last_accessed_at := now }) ::
    aremove f s.entries
  let n := l1.length - cfg.max_capacity
  { s with entries := evictN n l1, evictions := s.evictions + n }

/-- Modelled from the spec: invalidate(fingerprint) removes the entry
(spec section 4.2). -/
def invalidate (s : CacheState) (f : Nat) : CacheState :=
  { s with entries := aremove f s.entries }

/-- Modelled from the spec: invalidate(all) removes every entry
(spec section 4.2). -/
def invalidateAll (s : CacheState) : CacheState :=
  { s with entries := [] }

/-- A mutating cache operation, for reasoning about operation sequences. -/
inductive Op where
  | get (f : Nat) (now : Nat)
  | put (f : Nat) (v : String) (now : Nat)
  | invalidate (f : Nat)
  | invalidateAll

/-- Apply one operation to the store. -/
def applyOp (cfg : CacheConfig) (s : CacheState) : Op → CacheState
  | Op.get f now => (get cfg s f now).2
  | Op.put f v now => put cfg s f v now
  | Op.invalidate f => invalidate s f
  | Op.invalidateAll => invalidateAll s

/-- Apply a sequence of operations to the store. -/
def applyOps (cfg : CacheConfig) (s : CacheState) (ops : List Op) : CacheState :=
  ops.foldl (applyOp cfg) s

/-- Whether an operation is a put to fingerprint f. -/
def opPuts (f : Nat) : Op → Bool
  | Op.put g _ _ => if g = f then true else false
  | _ => false

/-- Modelled from the spec: lookup_or_compute: consult the cache first and,
only on a miss, compute (the computation's value is passed in) and put the
result (spec section 6). -/
def lookupOrCompute (cfg : CacheConfig) (s : CacheState) (f : Nat) (now : Nat)
    (computed : String) : String × CacheState :=
  let r := get cfg s f now
  match r.1 with
  | some v => (v, r.2)
  | none => (computed, put cfg r.2 f computed now)

end CacheStore

namespace Dedup

/-- Modelled from the spec: state of the Dedup Coordinator of spec section
4.3 (the concrete single-flight implementation behind the TestServer mock is
not among the example sources).  cached maps fingerprints to computed
results; inflight maps a fingerprint under computation to the callers
registered for it (the first registered caller is the sole computer);
delivered records the result each caller received; computations counts
Model Executor invocations. -/
structure DState where
  cached : List (Nat × String)
  inflight : List (Nat × List Nat)
  delivered : List (Nat × Except String String)
  hits : Nat
  misses : Nat
  computations : Nat

/-- The idle coordinator. -/
def dinit : DState :=
  { cached := [], inflight := [], delivered := [], hits := 0, misses := 0,
    computations := 0 }

/-- Modelled from the spec: a caller c arrives for fingerprint f.  A cached
value is delivered as a hit; if a computation for f is registered the caller
joins its waiters (dedup-credited as a hit, not an additional miss); else
the caller registers as the sole computer, counted as the one miss, and the
single computation starts (spec section 4.3). -/
def arrive (s : DState) (c : Nat) (f : Nat) : DState :=
  match alookup f s.cached with
  | some v => { s with delivered := (c, Except.ok v) :: s.delivered, hits := s.hits + 1 }
  | none =>
    match alookup f s.inflight with
    | some ws =>
      { s with inflight := (f, ws ++ [c]) :: aremove f s.inflight,
               hits := s.hits + 1 }
    | none =>
      { s with inflight := (f, [c]) :: aremove f s.inflight,
               misses := s.misses + 1,
               computations := s.computations + 1 }

/-- Modelled from the spec: the in-flight computation for f completes with
an outcome (a result value or a failure): the registration is cleared and
every registered waiter receives the same outcome; a successful result is
written to the cache before release, while a failure is delivered to all
waiters identically and is not cached (spec section 4.3). -/
def complete (s : DState) (f : Nat) (outcome : Except String String) : DState :=
  match alookup f s.inflight with
  | some ws =>
    match outcome with
    | Except.ok v =>
      { s with cached := (f, v) :: aremove f s.cached,
               inflight := aremove f s.inflight,
               delivered := (ws.map (fun c => (c, Except.ok v))) ++ s.delivered }
    | Except.error msg =>
      { s with inflight := aremove f s.inflight,
               delivered := (ws.map (fun c => (c, (Except.error msg : Except String String)))) ++ s.delivered }
  | none => s

/-- All callers of the batch arrive (in the given order) for fingerprint f. -/
def arriveAll (s : DState) (callers : List Nat) (f : Nat) : DState :=
  callers.foldl (fun st c => arrive st c f) s

end Dedup

namespace TinyDancer

/-- Modelled from the spec: CircuitBreakerState, one of Closed, Open,
HalfOpen (spec section 3); the Router and circuit breaker live in the
ruvector_tiny_dancer_core crate, which is not among the example sources. -/
inductive CircuitBreakerState where
  | Closed
  | Open
  | HalfOpen
deriving DecidableEq

/-- Modelled from the spec: router configuration fields used by decide and
the circuit breaker (spec section 6 and examples/tiny-dancer-usage.rs:
confidence_threshold, max_uncertainty, circuit_breaker_threshold).
Confidence and uncertainty scalars are modelled as rationals. -/
structure RouterConfig where
  confidence_threshold : ℚ
  max_uncertainty : ℚ
  circuit_breaker_threshold : Nat
deriving DecidableEq

/-- Modelled from the spec: a RoutingDecision reporting the raw confidence
and uncertainty plus the use_lightweight verdict (spec section 3). -/
structure RoutingDecision where
  candidate_id : String
  confidence : ℚ
  uncertainty : ℚ
  use_lightweight : Bool
deriving DecidableEq

/-- Modelled from the spec: decide(confidence, uncertainty, breaker_state):
when the breaker is Open, use_lightweight is forced false; otherwise
use_lightweight holds exactly when confidence meets confidence_threshold
AND uncertainty is within max_uncertainty (spec section 4.5). -/
def decide (cfg : RouterConfig) (cid : String) (confidence uncertainty : ℚ)
    (st : CircuitBreakerState) : RoutingDecision :=
  { candidate_id := cid,
    confidence := confidence,
    uncertainty := uncertainty,
    use_lightweight :=
      if st = CircuitBreakerState.Open then false
      else if cfg.confidence_threshold ≤ confidence ∧
              uncertainty ≤ cfg.max_uncertainty then true
      else false }

/-- Modelled from the spec: the circuit breaker's state together with its
consecutive-failure counter (spec section 4.6). -/
structure BreakerCore where
  state : CircuitBreakerState
  failures : Nat
deriving DecidableEq

/-- Modelled from the spec: record one lightweight-path outcome (spec
section 4.6).  In Closed, a success resets the consecutive-failure counter
to 0 and a failure increments it, transitioning to Open when it reaches
circuit_breaker_threshold; a HalfOpen trial success returns to Closed with
the counter reset, a HalfOpen trial failure returns to Open; Open only
changes by cool-down timing, which is outside this state step. -/
def recordOutcome (threshold : Nat) (b : BreakerCore) (success : Bool) :
    BreakerCore :=
  match b.state, success with
  | CircuitBreakerState.Closed, true =>
    { state := CircuitBreakerState.Closed, failures := 0 }
  | CircuitBreakerState.Closed, false =>
    if threshold ≤ b.failures + 1 then
      { state := CircuitBreakerState.Open, failures := b.failures + 1 }
    else
      { state := CircuitBreakerState.Closed, failures := b.failures + 1 }
  | CircuitBreakerState.Open, _ => b
  | CircuitBreakerState.HalfOpen, true =>
    { state := CircuitBreakerState.Closed, failures := 0 }
  | CircuitBreakerState.HalfOpen, false =>
    { state := CircuitBreakerState.Open, failures := b.failures }

/-- Modelled from the spec: circuit_breaker_status() reports true (healthy)
only while in Closed; both Open and HalfOpen report unhealthy
(spec section 4.6). -/
def circuit_breaker_status (b : BreakerCore) : Bool :=
  if b.state = CircuitBreakerState.Closed then true else false

/-- Record a sequence of lightweight-path outcomes in order. -/
def recordAll (threshold : Nat) (b : BreakerCore) (outcomes : List Bool) :
    BreakerCore :=
  outcomes.foldl (recordOutcome threshold) b

end TinyDancer

namespace Mathpix

/-- The MathpixError variants of src/examples/mathpix/src/error.rs; payloads
carry the variants' message strings, Timeout its seconds budget, Io the
underlying I/O error rendered as a string. -/
inductive MathpixError where
  | Image (msg : String)
  | Model (msg : String)
  | Ocr (msg : String)
  | LaTeX (msg : String)
  | Config (msg : String)
  | Io (msg : String)
  | Serialization (msg : String)
  | InvalidInput (msg : String)
  | Timeout (secs : Nat)
  | NotFound (msg : String)
  | Auth (msg : String)
  | RateLimit (msg : String)
  | Internal (msg : String)
deriving DecidableEq

/-- MathpixError::is_retryable of src/examples/mathpix/src/error.rs lines
85-104: Timeout, RateLimit, Io and Internal are retryable; all other
variants are not. -/
def MathpixError.is_retryable : MathpixError → Bool
  | MathpixError.Timeout _ => true
  | MathpixError.RateLimit _ => true
  | MathpixError.Io _ => true
  | MathpixError.Internal _ => true
  | MathpixError.Image _ => false
  | MathpixError.Model _ => false
  | MathpixError.Ocr _ => false
  | MathpixError.LaTeX _ => false
  | MathpixError.Config _ => false
  | MathpixError.Serialization _ => false
  | MathpixError.InvalidInput _ => false
  | MathpixError.NotFound _ => false
  | MathpixError.Auth _ => false

/-- MathpixError::status_code of src/examples/mathpix/src/error.rs lines
123-134. -/
def MathpixError.status_code : MathpixError → Nat
  | MathpixError.Auth _ => 401
  | MathpixError.NotFound _ => 404
  | MathpixError.InvalidInput _ => 400
  | MathpixError.RateLimit _ => 429
  | MathpixError.Timeout _ => 408
  | MathpixError.Config _ => 400
  | MathpixError.Internal _ => 500
  | _ => 500

end Mathpix

namespace Ocr

/-- Model types of src/examples/mathpix/src/ocr/models.rs lines 14-22. -/
inductive ModelType where
  | Detection
  | Recognition
  | Math
deriving DecidableEq

/-- ModelMetadata of src/examples/mathpix/src/ocr/models.rs lines 87-103. -/
structure ModelMetadata where
  name : String
  version : String
  input_shape : List Nat
  output_shape : List Nat
  input_dtype : String
  file_size : Nat
  checksum : Option String
deriving DecidableEq

/-- A loaded model handle (src/examples/mathpix/src/ocr/models.rs lines
28-58).  The hid field models the allocation identity of the Rust
Arc<ModelHandle>: each ModelHandle::new construction yields a fresh hid, so
hid equality models Arc::ptr_eq. -/
structure ModelHandle where
  hid : Nat
  model_type : ModelType
  path : String
  metadata : ModelMetadata
deriving DecidableEq

/-- OcrError variant raised by model loading. -/
inductive OcrError where
  | ModelLoading (msg : String)
deriving DecidableEq

/-- ModelRegistry of src/examples/mathpix/src/ocr/models.rs lines 117-124:
a cache of loaded models keyed by ModelType, the model directory, and the
lazy-loading flag.  next_hid is the allocation counter backing ModelHandle
identity. -/
structure ModelRegistry where
  cache : List (ModelType × ModelHandle)
  model_dir : String
  lazy_loading : Bool
  next_hid : Nat

/-- ModelRegistry::with_model_dir (models.rs lines 133-140). -/
def ModelRegistry.with_model_dir (dir : String) : ModelRegistry :=
  { cache := [], model_dir := dir, lazy_loading := true, next_hid := 0 }

/-- ModelRegistry::new (models.rs lines 128-130). -/
def ModelRegistry.mk0 : ModelRegistry :=
  ModelRegistry.with_model_dir "./models"

/-- ModelRegistry::get_model_path (models.rs lines 209-216). -/
def get_model_path (r : ModelRegistry) (t : ModelType) : String :=
  let filename :=
    match t with
    | ModelType.Detection => "text_detection.onnx"
    | ModelType.Recognition => "text_recognition.onnx"
    | ModelType.Math => "math_recognition.onnx"
  r.model_dir ++ "/" ++ filename

/-- ModelRegistry::get_model_metadata (models.rs lines 219-249). -/
def get_model_metadata (t : ModelType) : ModelMetadata :=
  match t with
  | ModelType.Detection =>
    { name := "Text Detection", version := "1.0.0",
      input_shape := [1, 3, 640, 640], output_shape := [1, 25200, 85],
      input_dtype := "float32", file_size := 50000000,
      checksum := some "mock_checksum_detection" }
  | ModelType.Recognition =>
    { name := "Text Recognition", version := "1.0.0",
      input_shape := [1, 1, 32, 128], output_shape := [1, 26, 37],
      input_dtype := "float32", file_size := 20000000,
      checksum := some "mock_checksum_recognition" }
  | ModelType.Math =>
    { name := "Math Recognition", version := "1.0.0",
      input_shape := [1, 1, 64, 256], output_shape := [1, 50, 512],
      input_dtype := "float32", file_size := 80000000,
      checksum := some "mock_checksum_math" }

/-- ModelRegistry::load_model (models.rs lines 158-206).  fileExists stands
for the filesystem's answer to Path::exists.  A cached handle is returned as
is (the identical Arc, registry unchanged); otherwise, when the model file
is absent and lazy loading is off, an OcrError::ModelLoading is returned;
else a fresh handle is constructed (fresh hid) and cached. -/
def load_model (fileExists : String → Bool) (r : ModelRegistry) (t : ModelType) :
    Except OcrError (ModelHandle × ModelRegistry) :=
  match alookup t r.cache with
  | some h => Except.ok (h, r)
  | none =>
    let model_path := get_model_path r t
    if fileExists model_path = false ∧ r.lazy_loading = false then
      Except.error (OcrError.ModelLoading
        ("Model not found at " ++ model_path))
    else
      let h : ModelHandle :=
        { hid := r.next_hid, model_type := t, path := model_path,
          metadata := get_model_metadata t }
      Except.ok (h,
        { r with cache := (t, h) :: aremove t r.cache,
                 next_hid := r.next_hid + 1 })

/-- ModelRegistry::get_cached (models.rs lines 305-307). -/
def get_cached (r : ModelRegistry) (t : ModelType) : Option ModelHandle :=
  alookup t r.cache

/-- ModelRegistry::clear_cache (models.rs lines 299-302). -/
def clear_cache (r : ModelRegistry) : ModelRegistry :=
  { r with cache := [] }

/-- Every cached handle was issued by the allocation counter: its hid is
below next_hid.  Holds for every registry built through the API. -/
def WellFormed (r : ModelRegistry) : Prop :=
  ∀ p ∈ r.cache, p.2.hid < r.next_hid

end Ocr

theorem alookup_aremove {κ α : Type} [DecidableEq κ] (k kq : κ)
    (l : List (κ × α)) :
    alookup k (aremove kq l) = if k = kq then none else alookup k l := by
  induction l with
  | nil => by_cases h : k = kq <;> simp [aremove, alookup, h]
  | cons p l ih =>
    by_cases h : k = kq
    · subst h
      by_cases h1 : p.1 = k <;> simp [aremove, alookup, h1, ih]
    · have hq : kq ≠ k := fun hh => h hh.symm
      by_cases h1 : p.1 = kq
      · have hpk : p.1 ≠ k := by rw [h1]; exact hq
        simp [aremove, alookup, h1, hpk, hq, ih, h]
      · simp [aremove, alookup, h1, ih, h]

theorem alookup_mem {κ α : Type} [DecidableEq κ] (k : κ) (v : α) :
    ∀ l : List (κ × α), alookup k l = some v → (k, v) ∈ l := by
  intro l
  induction l with
  | nil => intro h; simp [alookup] at h
  | cons p l ih =>
    intro h
    obtain ⟨p1, p2⟩ := p
    by_cases hp : p1 = k
    · simp only [alookup, hp, if_pos] at h
      simp only [Option.some.injEq] at h
      subst hp
      subst h
      exact List.mem_cons_self _ _
    · simp only [alookup] at h
      rw [if_neg hp] at h
      exact List.mem_cons_of_mem _ (ih h)

theorem aremove_aremove_self {κ α : Type} [DecidableEq κ] (k : κ)
    (l : List (κ × α)) : aremove k (aremove k l) = aremove k l := by
  induction l with
  | nil => simp [aremove]
  | cons p l ih =>
    by_cases hp : p.1 = k <;> simp [aremove, hp, ih]

theorem length_aremove_le {κ α : Type} [DecidableEq κ] (k : κ)
    (l : List (κ × α)) : (aremove k l).length ≤ l.length := by
  induction l with
  | nil => simp [aremove]
  | cons p l ih =>
    simp only [aremove]
    by_cases hp : p.1 = k
    · rw [if_pos hp]
      exact Nat.le_succ_of_le ih
    · rw [if_neg hp]
      simpa using Nat.succ_le_succ ih

theorem length_aremove_lt_of_mem {κ α : Type} [DecidableEq κ]
    (p : κ × α) : ∀ l : List (κ × α), p ∈ l →
    (aremove p.1 l).length < l.length := by
  intro l
  induction l with
  | nil => intro h; simp at h
  | cons q l ih =>
    intro h
    simp only [aremove]
    by_cases hq : q.1 = p.1
    · rw [if_pos hq]
      exact Nat.lt_succ_of_le (length_aremove_le p.1 l)
    · have hne : p ≠ q := fun hh => hq (congrArg Prod.fst hh.symm)
      have hmem : p ∈ l := by
        rcases List.mem_cons.mp h with h1 | h1
        · exact absurd h1 hne
        · exact h1
      rw [if_neg hq]
      simpa using Nat.succ_lt_succ (ih hmem)

namespace CacheStore

theorem foldlOlder_mem (xs : List (Nat × CacheEntry)) :
    ∀ x : Nat × CacheEntry,
    xs.foldl (fun acc y => if olderThan y acc then y else acc) x ∈ x :: xs := by
  induction xs with
  | nil => intro x; simp
  | cons y ys ih =>
    intro x
    simp only [List.foldl_cons]
    by_cases hc : olderThan y x = true
    · rw [if_pos hc]
      rcases List.mem_cons.mp (ih y) with h1 | h1
      · simp [h1]
      · simp [List.mem_cons, h1]
    · rw [if_neg hc]
      rcases List.mem_cons.mp (ih x) with h1 | h1
      · simp [h1]
      · simp [List.mem_cons, h1]

theorem lruMin_mem (l : List (Nat × CacheEntry)) (m : Nat × CacheEntry)
    (h : lruMin l = some m) : m ∈ l := by
  cases l with
  | nil => simp [lruMin] at h
  | cons x xs =>
    simp only [lruMin, Option.some.injEq] at h
    rw [← h]
    exact foldlOlder_mem xs x

theorem alookup_evictOnce_some (f : Nat) (e : CacheEntry)
    (l : List (Nat × CacheEntry)) (h : alookup f (evictOnce l) = some e) :
    alookup f l = some e := by
  unfold evictOnce at h
  cases hm : lruMin l with
  | none => rw [hm] at h; exact h
  | some m =>
    rw [hm] at h
    rw [alookup_aremove] at h
    by_cases hf : f = m.1
    · simp [hf] at h
    · rw [if_neg hf] at h
      exact h

theorem alookup_evictN_some (f : Nat) (e : CacheEntry) :
    ∀ (n : Nat) (l : List (Nat × CacheEntry)),
    alookup f (evictN n l) = some e → alookup f l = some e := by
  intro n
  induction n with
  | zero => intro l h; exact h
  | succ n ih =>
    intro l h
    exact alookup_evictOnce_some f e l (ih (evictOnce l) h)

theorem alookup_evictN_none (f : Nat) (n : Nat) (l : List (Nat × CacheEntry))
    (h : alookup f l = none) : alookup f (evictN n l) = none := by
  cases hv : alookup f (evictN n l) with
  | none => rfl
  | some e =>
    rw [alookup_evictN_some f e n l hv] at h
    exact absurd h (by simp)

theorem length_evictOnce_lt (l : List (Nat × CacheEntry)) (h : l ≠ []) :
    (evictOnce l).length < l.length := by
  unfold evictOnce
  cases hm : lruMin l with
  | none =>
    cases l with
    | nil => exact absurd rfl h
    | cons x xs => simp [lruMin] at hm
  | some m =>
    exact length_aremove_lt_of_mem m l (lruMin_mem l m hm)

theorem length_evictN_le : ∀ (n : Nat) (l : List (Nat × CacheEntry)),
    (evictN n l).length ≤ l.length - n := by
  intro n
  induction n with
  | zero => intro l; simp [evictN]
  | succ n ih =>
    intro l
    cases l with
    | nil =>
      have h0 : evictOnce ([] : List (Nat × CacheEntry)) = [] := by
        simp [evictOnce, lruMin]
      calc (evictN (n + 1) []).length = (evictN n []).length := by
            simp [evictN, h0]
        _ ≤ [].length - n := ih []
        _ ≤ [].length - (n + 1) := by simp
    | cons x xs =>
      have h1 : (evictOnce (x :: xs)).length < (x :: xs).length :=
        length_evictOnce_lt (x :: xs) (by simp)
      calc (evictN (n + 1) (x :: xs)).length
          = (evictN n (evictOnce (x :: xs))).length := by simp [evictN]
        _ ≤ (evictOnce (x :: xs)).length - n := ih _
        _ ≤ ((x :: xs).length - 1) - n := by omega
        _ = (x :: xs).length - (n + 1) := by omega

end CacheStore

namespace CacheStore

theorem size_put_le (cfg : CacheConfig) (s : CacheState) (f : Nat) (v : String)
    (now : Nat) : size (put cfg s f v now) ≤ cfg.max_capacity := by
  have key : ∀ l1 : List (Nat × CacheEntry),
      (evictN (l1.length - cfg.max_capacity) l1).length ≤ cfg.max_capacity := by
    intro l1
    have h1 := length_evictN_le (l1.length - cfg.max_capacity) l1
    rcases Nat.le_total cfg.max_capacity l1.length with hc | hc
    · rw [Nat.sub_sub_self hc] at h1
      exact h1
    · have h0 : l1.length - cfg.max_capacity = 0 := Nat.sub_eq_zero_of_le hc
      rw [h0]
      simpa [evictN] using hc
  exact key _

theorem size_get_le (cfg : CacheConfig) (s : CacheState) (f : Nat) (now : Nat) :
    size (get cfg s f now).2 ≤ size s := by
  cases hl : alookup f s.entries with
  | none => simp [get, hl, size]
  | some e =>
    by_cases hx : expiredAt cfg e now = true
    · simp [get, hl, hx, size]
    · have hx2 : expiredAt cfg e now = false := by
        simpa using hx
      have hlt : (aremove f s.entries).length < s.entries.length :=
        length_aremove_lt_of_mem (f, e) s.entries (alookup_mem f e s.entries hl)
      simp [get, hl, hx2, size]
      omega

theorem size_applyOp_le (cfg : CacheConfig) (s : CacheState) (op : Op)
    (h : size s ≤ cfg.max_capacity) :
    size (applyOp cfg s op) ≤ cfg.max_capacity := by
  cases op with
  | get f now => exact le_trans (size_get_le cfg s f now) h
  | put f v now => exact size_put_le cfg s f v now
  | invalidate f =>
    exact le_trans (length_aremove_le f s.entries) h
  | invalidateAll => simp [applyOp, invalidateAll, size]

theorem size_applyOps_le (cfg : CacheConfig) (ops : List Op) :
    ∀ s : CacheState, size s ≤ cfg.max_capacity →
    size (applyOps cfg s ops) ≤ cfg.max_capacity := by
  induction ops with
  | nil => intro s h; exact h
  | cons op ops ih =>
    intro s h
    exact ih (applyOp cfg s op) (size_applyOp_le cfg s op h)

/-- C1: for every fingerprint F and value V, a put(F, V) on the cache
immediately followed by get(F), before TTL or idle expiry (the elapsed time
from the put stays within time_to_live and time_to_idle) and with no
intervening invalidation or eviction of F (F is still resident after the
put), returns some V. -/
theorem put_then_get_returns_value (cfg : CacheConfig) (s : CacheState)
    (f : Nat) (v : String) (t tq : Nat)
    (hres : alookup f (put cfg s f v t).entries ≠ none)
    (httl : tq - t ≤ cfg.time_to_live)
    (htti : tq - t ≤ cfg.time_to_idle) :
    (get cfg (put cfg s f v t) f tq).1 = some v := by
  obtain ⟨e, he⟩ := Option.ne_none_iff_exists'.mp hres
  have he2 : alookup f (evictN
      (((f, ({ payload := v, created_at := t, last_accessed_at := t } :
          CacheEntry)) :: aremove f s.entries).length - cfg.max_capacity)
      ((f, ({ payload := v, created_at := t, last_accessed_at := t } :
          CacheEntry)) :: aremove f s.entries)) = some e := he
  have h1 := alookup_evictN_some f e _ _ he2
  have hE : e = { payload := v, created_at := t, last_accessed_at := t } := by
    have h2 : alookup f ((f, ({ payload := v, created_at := t, last_accessed_at := t } : CacheEntry)) :: aremove f s.entries) = some ({ payload := v, created_at := t, last_accessed_at := t } : CacheEntry) := by
      simp [alookup]
    rw [h1] at h2
    exact Option.some.inj h2
  have hl : alookup f (put cfg s f v t).entries =
      some { payload := v, created_at := t, last_accessed_at := t } := hE ▸ he
  have hexp : expiredAt cfg ({ payload := v, created_at := t, last_accessed_at := t } : CacheEntry) tq = false := by
    simp only [expiredAt]
    rw [if_neg (by omega), if_neg (by omega)]
  simp [get, hl, hexp]

/-- Witness for the C1 theorem at a concrete cache, key and times. -/
theorem put_then_get_returns_value_witness :
    (get { max_capacity := 2, time_to_live := 10, time_to_idle := 10 }
      (put { max_capacity := 2, time_to_live := 10, time_to_idle := 10 }
        initState 1 "payload" 0) 1 5).1 = some "payload" :=
  put_then_get_returns_value
    { max_capacity := 2, time_to_live := 10, time_to_idle := 10 }
    initState 1 "payload" 0 5 (by decide) (by decide) (by decide)

/-- C2: after every sequence of cache operations from the initial state the
current size is at most the configured max_capacity, and concretely with
max_capacity = 3, inserting 5 distinct keys leaves current_size at most 3
with the evictions counter at least 2. -/
theorem size_bounded_by_max_capacity :
    (∀ (cfg : CacheConfig) (ops : List Op),
      size (applyOps cfg initState ops) ≤ cfg.max_capacity) ∧
    size (applyOps ({ max_capacity := 3, time_to_live := 1000, time_to_idle := 1000 } : CacheConfig) initState [Op.put 1 "v" 0, Op.put 2 "v" 1, Op.put 3 "v" 2, Op.put 4 "v" 3, Op.put 5 "v" 4]) ≤ 3 ∧
    2 ≤ (applyOps ({ max_capacity := 3, time_to_live := 1000, time_to_idle := 1000 } : CacheConfig) initState [Op.put 1 "v" 0, Op.put 2 "v" 1, Op.put 3 "v" 2, Op.put 4 "v" 3, Op.put 5 "v" 4]).evictions := by
  refine ⟨fun cfg ops => size_applyOps_le cfg ops initState (by simp [size, initState]), ?_, ?_⟩
  · decide
  · decide

end CacheStore

namespace CacheStore

/-- C3: for every resident cache entry E and every time now, if
now - created_at exceeds time_to_live or now - last_accessed_at exceeds
time_to_idle, get on E's fingerprint returns none even though E is still
physically resident in the store. -/
theorem get_never_returns_expired (cfg : CacheConfig) (s : CacheState)
    (f : Nat) (now : Nat) (e : CacheEntry)
    (hres : alookup f s.entries = some e)
    (hexp : cfg.time_to_live < now - e.created_at ∨
            cfg.time_to_idle < now - e.last_accessed_at) :
    (get cfg s f now).1 = none := by
  have hx : expiredAt cfg e now = true := by
    simp only [expiredAt]
    rcases hexp with h | h
    · rw [if_pos h]
    · by_cases h1 : cfg.time_to_live < now - e.created_at
      · rw [if_pos h1]
      · rw [if_neg h1, if_pos h]
  simp [get, hres, hx]

/-- Witness for the C3 theorem on a store holding one stale entry. -/
theorem get_never_returns_expired_witness :
    (get ({ max_capacity := 5, time_to_live := 1, time_to_idle := 1 } : CacheConfig) ({ entries := [(4, { payload := "old", created_at := 0, last_accessed_at := 0 })], hits := 0, misses := 0, evictions := 0 } : CacheState) 4 3).1 = none :=
  get_never_returns_expired
    ({ max_capacity := 5, time_to_live := 1, time_to_idle := 1 } : CacheConfig)
    ({ entries := [(4, { payload := "old", created_at := 0, last_accessed_at := 0 })], hits := 0, misses := 0, evictions := 0 } : CacheState)
    4 3 { payload := "old", created_at := 0, last_accessed_at := 0 }
    (by decide) (by decide)

theorem absent_preserved (cfg : CacheConfig) (s : CacheState) (f : Nat)
    (op : Op) (h : alookup f s.entries = none) (hop : opPuts f op = false) :
    alookup f (applyOp cfg s op).entries = none := by
  cases op with
  | get g now =>
    cases hg : alookup g s.entries with
    | none => simpa [applyOp, get, hg] using h
    | some e =>
      have hgf : g ≠ f := fun hh => by
        rw [hh] at hg
        rw [hg] at h
        exact Option.noConfusion h
      by_cases hx : expiredAt cfg e now = true
      · simpa [applyOp, get, hg, hx] using h
      · have hx2 : expiredAt cfg e now = false := by simpa using hx
        simp only [applyOp, get, hg, hx2]
        simp only [Bool.false_eq_true, if_false, alookup]
        rw [if_neg hgf, alookup_aremove]
        by_cases hfg : f = g
        · simp [hfg]
        · rw [if_neg hfg]
          exact h
  | put g v now =>
    have hgf : g ≠ f := by
      intro hh
      rw [opPuts, if_pos hh] at hop
      exact Bool.noConfusion hop
    have hbase : alookup f ((g, ({ payload := v, created_at := now, last_accessed_at := now } : CacheEntry)) :: aremove g s.entries) = none := by
      simp only [alookup]
      rw [if_neg hgf, alookup_aremove]
      by_cases hfg : f = g
      · simp [hfg]
      · rw [if_neg hfg]
        exact h
    exact alookup_evictN_none f _ _ hbase
  | invalidate g =>
    simp only [applyOp, invalidate]
    rw [alookup_aremove]
    by_cases hfg : f = g
    · simp [hfg]
    · rw [if_neg hfg]
      exact h
  | invalidateAll => simp [applyOp, invalidateAll, alookup]

theorem absent_preserved_ops (cfg : CacheConfig) (f : Nat) (ops : List Op) :
    ∀ s : CacheState, alookup f s.entries = none →
    (∀ op ∈ ops, opPuts f op = false) →
    alookup f (applyOps cfg s ops).entries = none := by
  induction ops with
  | nil => intro s h _; exact h
  | cons op ops ih =>
    intro s h hops
    exact ih (applyOp cfg s op)
      (absent_preserved cfg s f op h (hops op (List.mem_cons_self _ _)))
      (fun o ho => hops o (List.mem_cons_of_mem _ ho))

theorem get_none_of_absent (cfg : CacheConfig) (s : CacheState) (f : Nat)
    (now : Nat) (h : alookup f s.entries = none) :
    (get cfg s f now).1 = none := by
  simp [get, h]

/-- C4: after invalidate(F) or invalidate-all completes, every subsequent
get(F) returns none, however many further operations run, as long as none
of them is a put to F. -/
theorem invalidate_guarantees_miss (cfg : CacheConfig) (s : CacheState)
    (f : Nat) (ops : List Op) (now : Nat)
    (hops : ∀ op ∈ ops, opPuts f op = false) :
    (get cfg (applyOps cfg (invalidate s f) ops) f now).1 = none ∧
    (get cfg (applyOps cfg (invalidateAll s) ops) f now).1 = none := by
  constructor
  · refine get_none_of_absent cfg _ f now (absent_preserved_ops cfg f ops _ ?_ hops)
    simp only [invalidate]
    rw [alookup_aremove]
    simp
  · refine get_none_of_absent cfg _ f now (absent_preserved_ops cfg f ops _ ?_ hops)
    simp [invalidateAll, alookup]

/-- Witness for the C4 theorem: invalidate then other-key traffic still
misses on the invalidated key. -/
theorem invalidate_guarantees_miss_witness :
    (get ({ max_capacity := 5, time_to_live := 10, time_to_idle := 10 } : CacheConfig) (applyOps ({ max_capacity := 5, time_to_live := 10, time_to_idle := 10 } : CacheConfig) (invalidate ({ entries := [(2, { payload := "x", created_at := 0, last_accessed_at := 0 })], hits := 0, misses := 0, evictions := 0 } : CacheState) 2) [Op.put 3 "y" 1, Op.get 3 1]) 2 1).1 = none ∧
    (get ({ max_capacity := 5, time_to_live := 10, time_to_idle := 10 } : CacheConfig) (applyOps ({ max_capacity := 5, time_to_live := 10, time_to_idle := 10 } : CacheConfig) (invalidateAll ({ entries := [(2, { payload := "x", created_at := 0, last_accessed_at := 0 })], hits := 0, misses := 0, evictions := 0 } : CacheState)) [Op.put 3 "y" 1, Op.get 3 1]) 2 1).1 = none :=
  invalidate_guarantees_miss
    ({ max_capacity := 5, time_to_live := 10, time_to_idle := 10 } : CacheConfig)
    ({ entries := [(2, { payload := "x", created_at := 0, last_accessed_at := 0 })], hits := 0, misses := 0, evictions := 0 } : CacheState)
    2 [Op.put 3 "y" 1, Op.get 3 1] 1 (by decide)

end CacheStore

namespace CacheStore

/-- C5: a get hit returns the entry's payload, refreshes its
last_accessed_at to now and increments hits; a get miss increments misses
and returns none while leaving the entries untouched (no recomputation);
and one fresh computation through lookup_or_compute followed by one repeated
lookup of the same key leaves stats at hits = 1 and misses = 1. -/
theorem get_hit_miss_accounting :
    (∀ (cfg : CacheConfig) (s : CacheState) (f : Nat) (now : Nat)
       (e : CacheEntry), alookup f s.entries = some e →
       expiredAt cfg e now = false →
       (get cfg s f now).1 = some e.payload ∧
       (get cfg s f now).2.hits = s.hits + 1 ∧
       (get cfg s f now).2.misses = s.misses ∧
       alookup f (get cfg s f now).2.entries =
         some { e with last_accessed_at := now }) ∧
    (∀ (cfg : CacheConfig) (s : CacheState) (f : Nat) (now : Nat),
       (get cfg s f now).1 = none →
       (get cfg s f now).2.misses = s.misses + 1 ∧
       (get cfg s f now).2.hits = s.hits ∧
       (get cfg s f now).2.entries = s.entries) ∧
    ((lookupOrCompute ({ max_capacity := 10, time_to_live := 100, time_to_idle := 100 } : CacheConfig) (lookupOrCompute ({ max_capacity := 10, time_to_live := 100, time_to_idle := 100 } : CacheConfig) initState 7 0 "result").2 7 1 "result").2.hits = 1 ∧
     (lookupOrCompute ({ max_capacity := 10, time_to_live := 100, time_to_idle := 100 } : CacheConfig) (lookupOrCompute ({ max_capacity := 10, time_to_live := 100, time_to_idle := 100 } : CacheConfig) initState 7 0 "result").2 7 1 "result").2.misses = 1) := by
  refine ⟨?_, ?_, by decide, by decide⟩
  · intro cfg s f now e hl hx
    refine ⟨by simp [get, hl, hx], by simp [get, hl, hx], by simp [get, hl, hx], ?_⟩
    simp [get, hl, hx, alookup]
  · intro cfg s f now h1
    cases hl : alookup f s.entries with
    | none => simp [get, hl]
    | some e =>
      by_cases hx : expiredAt cfg e now = true
      · simp [get, hl, hx]
      · have hx2 : expiredAt cfg e now = false := by simpa using hx
        rw [show (get cfg s f now).1 = some e.payload from by simp [get, hl, hx2]] at h1
        exact Option.noConfusion h1

/-- Witness for the C5 theorem: its hit clause applied to a concrete
one-entry store. -/
theorem get_hit_miss_accounting_witness :
    (get ({ max_capacity := 5, time_to_live := 10, time_to_idle := 10 } : CacheConfig) ({ entries := [(3, { payload := "w", created_at := 0, last_accessed_at := 0 })], hits := 4, misses := 2, evictions := 0 } : CacheState) 3 1).1 = some "w" ∧
    (get ({ max_capacity := 5, time_to_live := 10, time_to_idle := 10 } : CacheConfig) ({ entries := [(3, { payload := "w", created_at := 0, last_accessed_at := 0 })], hits := 4, misses := 2, evictions := 0 } : CacheState) 3 1).2.hits = 5 :=
  have h := get_hit_miss_accounting.1
    ({ max_capacity := 5, time_to_live := 10, time_to_idle := 10 } : CacheConfig)
    ({ entries := [(3, { payload := "w", created_at := 0, last_accessed_at := 0 })], hits := 4, misses := 2, evictions := 0 } : CacheState)
    3 1 { payload := "w", created_at := 0, last_accessed_at := 0 }
    (by decide) (by decide)
  ⟨h.1, h.2.1⟩

end CacheStore

namespace TinyDancer

/-- C6: with the breaker not Open, the routing decision's use_lightweight
holds exactly when confidence meets confidence_threshold and uncertainty is
within max_uncertainty (both must hold); with the breaker Open,
use_lightweight is false regardless of confidence and uncertainty. -/
theorem decide_thresholds_and_open_override :
    (∀ (cfg : RouterConfig) (cid : String) (c u : ℚ)
      (st : CircuitBreakerState), st ≠ CircuitBreakerState.Open →
      ((decide cfg cid c u st).use_lightweight = true ↔
        (cfg.confidence_threshold ≤ c ∧ u ≤ cfg.max_uncertainty))) ∧
    (∀ (cfg : RouterConfig) (cid : String) (c u : ℚ),
      (decide cfg cid c u CircuitBreakerState.Open).use_lightweight = false) := by
  constructor
  · intro cfg cid c u st hst
    simp only [decide]
    rw [if_neg hst]
    by_cases hp : cfg.confidence_threshold ≤ c ∧ u ≤ cfg.max_uncertainty
    · rw [if_pos hp]
      simp [hp]
    · rw [if_neg hp]
      simp [hp]
  · intro cfg cid c u
    simp [decide]

/-- Witness for the C6 theorem: a Closed-state decision with passing
thresholds routes lightweight. -/
theorem decide_thresholds_and_open_override_witness :
    (decide ({ confidence_threshold := 0, max_uncertainty := 1, circuit_breaker_threshold := 5 } : RouterConfig) "cand" 1 0 CircuitBreakerState.Closed).use_lightweight = true :=
  (decide_thresholds_and_open_override.1
    ({ confidence_threshold := 0, max_uncertainty := 1, circuit_breaker_threshold := 5 } : RouterConfig)
    "cand" 1 0 CircuitBreakerState.Closed (by decide)).mpr (by decide)

/-- C7: from Closed, a success resets the consecutive-failure counter to 0
and a failure increments it; the state becomes Open exactly when the
incremented counter reaches circuit_breaker_threshold; the status query
reports healthy only while Closed (Open and HalfOpen report unhealthy); and
concretely five consecutive failures with threshold 5 take Closed to Open. -/
theorem breaker_counter_and_status :
    (∀ threshold n : Nat,
      recordOutcome threshold { state := CircuitBreakerState.Closed, failures := n } true =
        { state := CircuitBreakerState.Closed, failures := 0 }) ∧
    (∀ threshold n : Nat,
      (recordOutcome threshold { state := CircuitBreakerState.Closed, failures := n } false).failures = n + 1) ∧
    (∀ threshold n : Nat,
      ((recordOutcome threshold { state := CircuitBreakerState.Closed, failures := n } false).state = CircuitBreakerState.Open ↔ threshold ≤ n + 1)) ∧
    (∀ b : BreakerCore,
      circuit_breaker_status b = true ↔ b.state = CircuitBreakerState.Closed) ∧
    (recordAll 5 { state := CircuitBreakerState.Closed, failures := 0 }
      [false, false, false, false, false]).state = CircuitBreakerState.Open := by
  refine ⟨fun th n => rfl, fun th n => ?_, fun th n => ?_, fun b => ?_, by decide⟩
  · simp only [recordOutcome]
    split <;> rfl
  · simp only [recordOutcome]
    by_cases h : th ≤ n + 1
    · rw [if_pos h]
      simpa using h
    · rw [if_neg h]
      simp [h]
  · cases hb : b.state <;> simp [circuit_breaker_status, hb]

/-- Witness for the C7 theorem: the status query is healthy on the initial
Closed breaker. -/
theorem breaker_counter_and_status_witness :
    circuit_breaker_status { state := CircuitBreakerState.Closed, failures := 0 } = true :=
  (breaker_counter_and_status.2.2.2.1
    { state := CircuitBreakerState.Closed, failures := 0 }).mpr rfl

end TinyDancer

namespace Dedup

theorem alookup_map_const {α : Type} (v : α) :
    ∀ (cs : List Nat) (tail : List (Nat × α)) (c : Nat), c ∈ cs →
    alookup c (cs.map (fun x => (x, v)) ++ tail) = some v := by
  intro cs
  induction cs with
  | nil => intro tail c h; simp at h
  | cons d cs ih =>
    intro tail c h
    by_cases hd : d = c
    · simp [alookup, hd]
    · have h1 : c ∈ cs := by
        rcases List.mem_cons.mp h with h2 | h2
        · exact absurd h2.symm hd
        · exact h2
      simp only [List.map_cons, List.cons_append, alookup]
      rw [if_neg hd]
      exact ih tail c h1

theorem arriveAll_spec (f : Nat) (rest : List Nat) :
    ∀ (st : DState) (ws : List Nat),
    alookup f st.cached = none → alookup f st.inflight = some ws →
    (arriveAll st rest f).cached = st.cached ∧
    alookup f (arriveAll st rest f).inflight = some (ws ++ rest) ∧
    aremove f (arriveAll st rest f).inflight = aremove f st.inflight ∧
    (arriveAll st rest f).delivered = st.delivered ∧
    (arriveAll st rest f).hits = st.hits + rest.length ∧
    (arriveAll st rest f).misses = st.misses ∧
    (arriveAll st rest f).computations = st.computations := by
  induction rest with
  | nil =>
    intro st ws hc hi
    simp [arriveAll, hi]
  | cons c rest ih =>
    intro st ws hc hi
    have harr : arrive st c f = { st with inflight := (f, ws ++ [c]) :: aremove f st.inflight, hits := st.hits + 1 } := by
      simp [arrive, hc, hi]
    have hc1 : alookup f (arrive st c f).cached = none := by
      rw [harr]
      exact hc
    have hi1 : alookup f (arrive st c f).inflight = some (ws ++ [c]) := by
      rw [harr]
      simp [alookup]
    have hstep : arriveAll st (c :: rest) f = arriveAll (arrive st c f) rest f := by
      simp [arriveAll]
    obtain ⟨g1, g2, g3, g4, g5, g6, g7⟩ := ih (arrive st c f) (ws ++ [c]) hc1 hi1
    rw [hstep]
    refine ⟨?_, ?_, ?_, ?_, ?_, ?_, ?_⟩
    · rw [g1, harr]
    · rw [g2]
      congr 1
      simp
    · rw [g3, harr]
      simp [aremove, aremove_aremove_self]
    · rw [g4, harr]
    · rw [g5, harr]
      simp only [List.length_cons]
      omega
    · rw [g6, harr]
    · rw [g7, harr]

/-- C8: for a fingerprint F absent from the cache with no computation in
flight, when N callers arrive for F (in any order) before the single
computation completes, exactly one underlying computation runs, every
caller receives the identical outcome (the identical result on success, the
identical failure on failure), and stats account exactly 1 miss with the
remaining N - 1 callers credited as hits. -/
theorem single_flight_dedup (s : DState) (f : Nat) (o : Except String String)
    (callers : List Nat) (hne : callers ≠ [])
    (hc : alookup f s.cached = none) (hi : alookup f s.inflight = none) :
    (complete (arriveAll s callers f) f o).computations = s.computations + 1 ∧
    (complete (arriveAll s callers f) f o).misses = s.misses + 1 ∧
    (complete (arriveAll s callers f) f o).hits = s.hits + (callers.length - 1) ∧
    ∀ c ∈ callers, alookup c (complete (arriveAll s callers f) f o).delivered = some o := by
  cases callers with
  | nil => exact absurd rfl hne
  | cons c0 rest =>
    have harr : arrive s c0 f = { s with inflight := (f, [c0]) :: aremove f s.inflight, misses := s.misses + 1, computations := s.computations + 1 } := by
      simp [arrive, hc, hi]
    have hc1 : alookup f (arrive s c0 f).cached = none := by
      rw [harr]
      exact hc
    have hi1 : alookup f (arrive s c0 f).inflight = some [c0] := by
      rw [harr]
      simp [alookup]
    have hstep : arriveAll s (c0 :: rest) f = arriveAll (arrive s c0 f) rest f := by
      simp [arriveAll]
    obtain ⟨g1, g2, g3, g4, g5, g6, g7⟩ :=
      arriveAll_spec f rest (arrive s c0 f) [c0] hc1 hi1
    have g2s : alookup f (arriveAll (arrive s c0 f) rest f).inflight = some (c0 :: rest) := by
      rw [g2]
      simp
    rw [hstep]
    cases o with
    | ok v =>
      refine ⟨?_, ?_, ?_, ?_⟩
      · simp only [complete, g2s]
        rw [g7, harr]
      · simp only [complete, g2s]
        rw [g6, harr]
      · simp only [complete, g2s]
        rw [g5, harr]
        simp only [List.length_cons]
        omega
      · intro c hcmem
        simp only [complete, g2s]
        exact alookup_map_const (Except.ok v) (c0 :: rest) _ c hcmem
    | error m =>
      refine ⟨?_, ?_, ?_, ?_⟩
      · simp only [complete, g2s]
        rw [g7, harr]
      · simp only [complete, g2s]
        rw [g6, harr]
      · simp only [complete, g2s]
        rw [g5, harr]
        simp only [List.length_cons]
        omega
      · intro c hcmem
        simp only [complete, g2s]
        exact alookup_map_const (Except.error m) (c0 :: rest) _ c hcmem

/-- Witness for the C8 theorem: three concurrent callers on an idle
coordinator yield one computation, one miss, two hits, and all three
receive the computed result. -/
theorem single_flight_dedup_witness :
    (complete (arriveAll dinit [10, 11, 12] 1) 1 (Except.ok "res")).computations = 0 + 1 ∧
    (complete (arriveAll dinit [10, 11, 12] 1) 1 (Except.ok "res")).misses = 0 + 1 ∧
    (complete (arriveAll dinit [10, 11, 12] 1) 1 (Except.ok "res")).hits = 0 + ([10, 11, 12].length - 1) ∧
    ∀ c ∈ [10, 11, 12], alookup c (complete (arriveAll dinit [10, 11, 12] 1) 1 (Except.ok "res")).delivered = some (Except.ok "res") :=
  single_flight_dedup dinit 1 (Except.ok "res") [10, 11, 12] (by decide) rfl rfl

end Dedup

namespace Mathpix

/-- C9: is_retryable returns true for every Timeout error and false for
every InvalidInput (malformed lookup input) error. -/
theorem timeout_retryable_invalid_input_not :
    (∀ t : Nat, (MathpixError.Timeout t).is_retryable = true) ∧
    (∀ m : String, (MathpixError.InvalidInput m).is_retryable = false) :=
  ⟨fun _ => rfl, fun _ => rfl⟩

end Mathpix

namespace Ocr

/-- C10: load_model is idempotent: after a first successful load_model(t)
returning handle h and registry r1, load_model(t) on r1 returns the
identical handle with the registry unchanged (no second construction), and
get_cached(t) returns the same handle; after clear_cache the cache is empty,
and the next successful load_model(t) constructs a fresh handle (the next
allocation identity, distinct from h). -/
theorem load_model_idempotent_and_clear (fe : String → Bool)
    (r : ModelRegistry) (t : ModelType) (h : ModelHandle) (r1 : ModelRegistry)
    (hwf : WellFormed r)
    (hload : load_model fe r t = Except.ok (h, r1)) :
    load_model fe r1 t = Except.ok (h, r1) ∧
    get_cached r1 t = some h ∧
    (∀ u : ModelType, get_cached (clear_cache r1) u = none) ∧
    (∀ (h2 : ModelHandle) (r2 : ModelRegistry),
      load_model fe (clear_cache r1) t = Except.ok (h2, r2) →
      h2.hid = r1.next_hid ∧ h2.hid ≠ h.hid) := by
  have hfresh : ∀ (rc : ModelRegistry) (h2 : ModelHandle) (r2 : ModelRegistry),
      rc.cache = [] → load_model fe rc t = Except.ok (h2, r2) →
      h2.hid = rc.next_hid := by
    intro rc h2 r2 hempty hl2
    simp only [load_model, hempty, alookup] at hl2
    split at hl2
    · exact Except.noConfusion hl2
    · simp only [Except.ok.injEq, Prod.mk.injEq] at hl2
      rw [← hl2.1]
  cases hcache : alookup t r.cache with
  | some h0 =>
    have hmem := alookup_mem t h0 r.cache hcache
    have hlt : h0.hid < r.next_hid := hwf (t, h0) hmem
    simp only [load_model, hcache, Except.ok.injEq, Prod.mk.injEq] at hload
    obtain ⟨hh, hr⟩ := hload
    subst hh
    subst hr
    refine ⟨by simp [load_model, hcache], by simp [get_cached, hcache], fun u => rfl, ?_⟩
    intro h2 r2 hl2
    have hid2 : h2.hid = r.next_hid := hfresh (clear_cache r) h2 r2 rfl hl2
    exact ⟨hid2, by omega⟩
  | none =>
    simp only [load_model, hcache] at hload
    split at hload
    · exact Except.noConfusion hload
    · simp only [Except.ok.injEq, Prod.mk.injEq] at hload
      obtain ⟨hh, hr⟩ := hload
      have hcache1 : alookup t r1.cache = some h := by
        rw [← hr, ← hh]
        simp [alookup]
      have hnext1 : r1.next_hid = r.next_hid + 1 := by
        rw [← hr]
      have hhid : h.hid = r.next_hid := by
        rw [← hh]
      refine ⟨by simp [load_model, hcache1, hr], by simp [get_cached, hcache1], fun u => rfl, ?_⟩
      intro h2 r2 hl2
      have hid2 : h2.hid = r1.next_hid := hfresh (clear_cache r1) h2 r2 rfl hl2
      refine ⟨hid2, ?_⟩
      rw [hid2, hnext1, hhid]
      omega

/-- Witness for the C10 theorem: a first load on a fresh registry caches
handle 0 and a repeated load returns it unchanged. -/
theorem load_model_idempotent_and_clear_witness :
    load_model (fun _ => true) ({ cache := [(ModelType.Detection, { hid := 0, model_type := ModelType.Detection, path := get_model_path ModelRegistry.mk0 ModelType.Detection, metadata := get_model_metadata ModelType.Detection })], model_dir := "./models", lazy_loading := true, next_hid := 1 } : ModelRegistry) ModelType.Detection =
      Except.ok ({ hid := 0, model_type := ModelType.Detection, path := get_model_path ModelRegistry.mk0 ModelType.Detection, metadata := get_model_metadata ModelType.Detection }, ({ cache := [(ModelType.Detection, { hid := 0, model_type := ModelType.Detection, path := get_model_path ModelRegistry.mk0 ModelType.Detection, metadata := get_model_metadata ModelType.Detection })], model_dir := "./models", lazy_loading := true, next_hid := 1 } : ModelRegistry)) :=
  (load_model_idempotent_and_clear (fun _ => true) ModelRegistry.mk0
    ModelType.Detection
    { hid := 0, model_type := ModelType.Detection, path := get_model_path ModelRegistry.mk0 ModelType.Detection, metadata := get_model_metadata ModelType.Detection }
    ({ cache := [(ModelType.Detection, { hid := 0, model_type := ModelType.Detection, path := get_model_path ModelRegistry.mk0 ModelType.Detection, metadata := get_model_metadata ModelType.Detection })], model_dir := "./models", lazy_loading := true, next_hid := 1 } : ModelRegistry)
    (by simp [WellFormed, ModelRegistry.mk0, ModelRegistry.with_model_dir])
    rfl).1

end Ocr
